import Mathlib

/-!
Shallow embedding of the hyperdimensional-computing prototype
(archive/research-hdc-2025/scripts/hdc_prototype.py).

Modelling conventions:
- A NumPy 1-D integer array is a `List ℤ`.  The explicit `astype(np.int8)`
  casts in the source are modelled by `toInt8` (wrap into [-128, 127]).
- Python floats are modelled as real numbers (exact arithmetic); the one
  place the source can produce NaN (0.0/0.0 in `cosine_similarity` on
  zero-length input) is modelled by the Lean convention x / 0 = 0, and the
  claims touching that point are settled on whether an error is raised,
  which does not depend on the NaN value itself.
- A raised Python exception is an `Except.error` carrying the abstract
  error kind the specification assigns to that failure site.
- `np.multiply` broadcasts a length-1 operand against any length
  (general ufunc broadcasting), so `bind` only fails when the lengths
  differ and neither operand has length 1.
- `np.sum(list, axis=0)` on a ragged list of 1-D arrays raises ValueError
  (inhomogeneous shape), so `bundle` fails when the vectors do not all
  share one length.
- `np.dot` on 1-D arrays requires equal lengths and raises ValueError
  otherwise; no broadcasting applies there.  Every hypervector the
  program builds is an int8 array (each constructor ends in
  astype(np.int8)), and np.dot on two int8 arrays returns a scalar of
  the promoted input dtype int8: the exact accumulated sum is cast back
  to int8, wrapping mod 256.  np.linalg.norm, by contrast, casts
  integer input to float64 before squaring and summing, so the norms
  are exact.
- `np.random.choice([-1, 1], size=d)` raises ValueError for negative `d`
  (negative dimensions are not allowed) and returns an empty array for
  `d = 0`; for `d > 0` it returns `d` draws from {-1, 1}.
-/

namespace HDC

/-- A NumPy 1-D integer array, modelled with unbounded integers. -/
abbrev Vec := List ℤ

/-- The global dimension constant of the script (10,000). -/
def DIMENSION : ℕ := 10000

/-- Wrap an integer into the int8 range, the effect of astype(np.int8). -/
def toInt8 (x : ℤ) : ℤ := (x + 128) % 256 - 128

/-- A vector is bipolar when every component is +1 or -1. -/
def IsBipolar (v : Vec) : Prop := ∀ x ∈ v, x = 1 ∨ x = -1

instance (v : Vec) : Decidable (IsBipolar v) := List.decidableBAll _ v

/-- Abstract error kinds for the failure sites of the prototype. -/
inductive HDCError where
  | invalidArgument
  | dimensionMismatch
  | emptyInput
deriving DecidableEq, Repr

/-- Componentwise negation of a vector (NumPy unary minus). -/
def negVec (v : Vec) : Vec := v.map (fun x => -x)

/-- State of the process-wide random generators: the Python `random`
module state (seeded but never consumed by vector generation) and the
NumPy global generator, reduced to its seed and the number of bipolar
draws already consumed. -/
structure GenState where
  pySeed : ℕ
  npSeed : ℕ
  npPos : ℕ
deriving DecidableEq, Repr

/-- One bipolar draw of the seeded NumPy generator.  The Mersenne-Twister
internals are library code outside this repository; the claims use only
that the draw is a fixed deterministic function of the seed and the draw
position with values in {-1, +1}, so any such function models it. -/
def prngDraw (seed pos : ℕ) : ℤ := if (seed + pos) % 2 = 0 then 1 else -1

/-- set_seed: seeds both the Python and the NumPy global generators,
discarding whatever state they held before. -/
def set_seed (seed : ℕ) (_g : GenState) : GenState :=
  { pySeed := seed, npSeed := seed, npPos := 0 }

/-- random_hypervector: np.random.choice([-1, 1], size=dimension) followed
by astype(np.int8).  Negative sizes raise ValueError (InvalidArgument);
size 0 yields the empty array; otherwise `dimension` fresh draws are taken
from the NumPy generator, advancing its state. -/
def random_hypervector (dimension : ℤ) (g : GenState) :
    Except HDCError (Vec × GenState) :=
  if dimension < 0 then .error .invalidArgument
  else .ok (((List.range dimension.toNat).map
      (fun i => prngDraw g.npSeed (g.npPos + i))),
    { pySeed := g.pySeed, npSeed := g.npSeed,
      npPos := g.npPos + dimension.toNat })

/-- Outputs of a sequence of random_hypervector calls from a given state.
A failed call leaves the generator state unchanged (NumPy raises before
drawing). -/
def runCalls (g : GenState) : List ℤ → List (Except HDCError Vec)
  | [] => []
  | d :: ds =>
    match random_hypervector d g with
    | .ok (v, g2) => .ok v :: runCalls g2 ds
    | .error e => .error e :: runCalls g ds

/-- bind: np.multiply(a, b).astype(np.int8).  Ufunc broadcasting accepts
equal lengths or a length-1 operand; any other length combination raises
ValueError (DimensionMismatch). -/
def bind (a b : Vec) : Except HDCError Vec :=
  if a.length = b.length then
    .ok (List.zipWith (fun x y => toInt8 (x * y)) a b)
  else if a.length = 1 then .ok (b.map (fun y => toInt8 (a.headI * y)))
  else if b.length = 1 then .ok (a.map (fun x => toInt8 (x * b.headI)))
  else .error .dimensionMismatch

/-- Componentwise sum of a nonempty collection, np.sum(vectors, axis=0),
written as a fold of componentwise additions starting from the first
vector.  NumPy accumulates these sums in the platform integer, so no
wrap-around is modelled here. -/
def sumVecs (v : Vec) (vs : List Vec) : Vec :=
  vs.foldl (fun acc w => List.zipWith (· + ·) acc w) v

/-- bundle: majority vote.  Empty input raises ValueError (EmptyInput);
vectors of differing lengths make np.sum raise on the ragged list
(DimensionMismatch); otherwise np.where(summed >= 0, 1, -1). -/
def bundle (vs : List Vec) : Except HDCError Vec :=
  match vs with
  | [] => .error .emptyInput
  | v :: rest =>
    if rest.all (fun w => w.length = v.length) then
      .ok ((sumVecs v rest).map (fun s => if 0 ≤ s then 1 else -1))
    else .error .dimensionMismatch

/-- Componentwise sum at index i across a collection: the spec-side
reading of np.sum(vectors, axis=0) at one component. -/
def colSum (vs : List Vec) (i : ℕ) : ℤ := (vs.map (fun w => w.getD i 0)).sum

/-- Exact inner product of two equal-length integer vectors. -/
def dotExact (a b : Vec) : ℤ := (List.zipWith (· * ·) a b).sum

/-- np.dot(a, b) on the program's int8 arrays: the loop accumulates the
exact sum in a wide integer and casts the result back to the promoted
input dtype int8, wrapping it into [-128, 127]. -/
def dotZ (a b : Vec) : ℤ := toInt8 (dotExact a b)

/-- Euclidean norm, np.linalg.norm: integer input is cast to float64
before the sum of squares is taken, so the value under the square root
is the exact inner product, with no int8 wrap. -/
noncomputable def normv (v : Vec) : ℝ := Real.sqrt ((dotExact v v : ℤ) : ℝ)

/-- The real value computed by cosine_similarity on equal-length inputs:
the int8-wrapped np.dot numerator over the exact float64 norms. -/
noncomputable def cosVal (a b : Vec) : ℝ :=
  ((dotZ a b : ℤ) : ℝ) / (normv a * normv b)

/-- cosine_similarity: np.dot(a, b) / (norm(a) * norm(b)).  np.dot raises
ValueError when the 1-D lengths differ (DimensionMismatch); otherwise the
quotient is returned (0/0, Python NaN, is modelled as the Lean junk value
0 -- no exception is raised there). -/
noncomputable def cosine_similarity (a b : Vec) : Except HDCError ℝ :=
  if a.length = b.length then .ok (cosVal a b)
  else .error .dimensionMismatch

/-- The associative memory: a Python dict from keys to vectors, modelled
as its insertion-ordered list of entries. -/
structure HDCDictionary where
  items : List (String × Vec)

/-- add: dict assignment items[key] = vector.  An existing key keeps its
position and gets the new value; a new key is appended at the end. -/
def HDCDictionary.add (m : HDCDictionary) (key : String) (v : Vec) :
    HDCDictionary :=
  if m.items.any (fun kv => kv.1 = key) then
    ⟨m.items.map (fun kv => if kv.1 = key then (key, v) else kv)⟩
  else ⟨m.items ++ [(key, v)]⟩

/-- The comparison used by query: sorted(..., key=lambda x: x[1],
reverse=True) orders by score descending. -/
noncomputable def scoreLE (x y : String × ℝ) : Bool :=
  @decide (y.2 ≤ x.2) (Classical.propDecidable _)

/-- query: score every stored entry with cosine_similarity(vector, stored)
in insertion order (the first failing entry propagates its error), then
sort by score descending.  Python sorted(..., reverse=True) is a stable
sort under the reversed comparison, which is mergeSort with the
greater-or-equal test on scores. -/
noncomputable def HDCDictionary.query (m : HDCDictionary) (v : Vec) :
    Except HDCError (List (String × ℝ)) :=
  Except.map
    (fun scores => scores.mergeSort scoreLE)
    (m.items.mapM (fun kv =>
      Except.map (fun s => (kv.1, s)) (cosine_similarity v kv.2)))

end HDC
namespace HDC

lemma bipolar_cancel {x y : ℤ} (hx : x = 1 ∨ x = -1) (hy : y = 1 ∨ y = -1) :
    toInt8 (toInt8 (x * y) * y) = x := by
  rcases hx with rfl | rfl <;> rcases hy with rfl | rfl <;> rfl

lemma zip_cancel (a : Vec) : ∀ (b : Vec), a.length = b.length → IsBipolar a →
    IsBipolar b →
    List.zipWith (fun x y => toInt8 (x * y))
      (List.zipWith (fun x y => toInt8 (x * y)) a b) b = a := by
  induction a with
  | nil =>
    intro b h _ _
    cases b with
    | nil => rfl
    | cons y b => simp at h
  | cons x a ih =>
    intro b h ha hb
    cases b with
    | nil => simp at h
    | cons y b =>
      simp only [List.zipWith_cons_cons]
      have hx : x = 1 ∨ x = -1 := ha x (by simp)
      have hy : y = 1 ∨ y = -1 := hb y (by simp)
      rw [bipolar_cancel hx hy,
        ih b (by simpa using h) (fun z hz => ha z (by simp [hz]))
          (fun z hz => hb z (by simp [hz]))]

/-- C1: bind is self-inverse: for bipolar vectors a and b of equal length,
binding a with b and then binding the result with b again returns a. -/
theorem bind_self_inverse (a b : Vec) (ha : IsBipolar a) (hb : IsBipolar b)
    (hlen : a.length = b.length) :
    ∃ c, HDC.bind a b = Except.ok c ∧ HDC.bind c b = Except.ok a := by
  refine ⟨List.zipWith (fun x y => toInt8 (x * y)) a b, ?_, ?_⟩
  · simp [HDC.bind, hlen]
  · have hc : (List.zipWith (fun x y => toInt8 (x * y)) a b).length = b.length := by
      simp [List.length_zipWith, hlen]
    simp [HDC.bind, hc, zip_cancel a b hlen ha hb]

/-- C1 witness: the self-inverse law at the concrete pair [1,-1], [-1,-1]. -/
theorem bind_self_inverse_witness :
    ∃ c, HDC.bind [1, -1] [-1, -1] = Except.ok c ∧
      HDC.bind c [-1, -1] = Except.ok [1, -1] :=
  bind_self_inverse [1, -1] [-1, -1] (by decide) (by decide) (by decide)

end HDC

namespace HDC

lemma sumVecs_cons (v w : Vec) (vs : List Vec) :
    sumVecs v (w :: vs) = sumVecs (List.zipWith (· + ·) v w) vs := rfl

lemma sumVecs_length : ∀ (vs : List Vec) (v : Vec),
    (∀ w ∈ vs, w.length = v.length) → (sumVecs v vs).length = v.length := by
  intro vs
  induction vs with
  | nil => intro v _; rfl
  | cons w vs ih =>
    intro v h
    have hw : w.length = v.length := h w (by simp)
    have hz : (List.zipWith (· + ·) v w).length = v.length := by
      simp [List.length_zipWith, hw]
    rw [sumVecs_cons, ih _ (fun u hu => by rw [hz]; exact h u (by simp [hu])), hz]

lemma sumVecs_getD : ∀ (vs : List Vec) (v : Vec) (i : ℕ),
    (∀ w ∈ vs, w.length = v.length) → i < v.length →
    (sumVecs v vs).getD i 0 = v.getD i 0 + colSum vs i := by
  intro vs
  induction vs with
  | nil => intro v i _ _; simp [sumVecs, colSum]
  | cons w vs ih =>
    intro v i h hi
    have hw : w.length = v.length := h w (by simp)
    have hz : (List.zipWith (· + ·) v w).length = v.length := by
      simp [List.length_zipWith, hw]
    rw [sumVecs_cons,
      ih _ i (fun u hu => by rw [hz]; exact h u (by simp [hu])) (by rw [hz]; exact hi)]
    have hzi : (List.zipWith (· + ·) v w).getD i 0 = v.getD i 0 + w.getD i 0 := by
      rw [List.getD_eq_getElem _ _ (by rw [hz]; exact hi), List.getElem_zipWith,
        List.getD_eq_getElem _ _ hi, List.getD_eq_getElem _ _ (by rw [hw]; exact hi)]
    rw [hzi]
    simp [colSum]
    ring

lemma zip_add_neg (v : Vec) :
    List.zipWith (· + ·) v (negVec v) = List.replicate v.length 0 := by
  induction v with
  | nil => rfl
  | cons x v ih =>
    simp only [negVec, List.map_cons, List.zipWith_cons_cons, List.length_cons,
      List.replicate] at ih ⊢
    rw [ih]
    simp

/-- C2: bundle of a nonempty collection of same-length vectors is the
componentwise sign of the componentwise sum, ties resolving to +1; bundle
of the empty collection fails with EmptyInput; and bundling a bipolar
vector with its negation yields the all-ones vector. -/
theorem bundle_correct (v : Vec) (vs : List Vec)
    (hlen : ∀ w ∈ vs, w.length = v.length) :
    (∃ out, bundle (v :: vs) = Except.ok out ∧ out.length = v.length ∧
       ∀ i, i < v.length →
         out.getD i 0 = if 0 ≤ colSum (v :: vs) i then 1 else -1)
    ∧ bundle ([] : List Vec) = Except.error HDCError.emptyInput
    ∧ (IsBipolar v → bundle [v, negVec v] = Except.ok (List.replicate v.length 1)) := by
  refine ⟨?_, rfl, ?_⟩
  · have hall : (vs.all fun w => decide (w.length = v.length)) = true := by
      simp only [List.all_eq_true, decide_eq_true_eq]
      exact hlen
    refine ⟨(sumVecs v vs).map (fun s => if 0 ≤ s then 1 else -1), ?_, ?_, ?_⟩
    · simp [bundle, hall]
    · simp [List.length_map, sumVecs_length vs v hlen]
    · intro i hi
      have hs : i < (sumVecs v vs).length := by rw [sumVecs_length vs v hlen]; exact hi
      have hm : i < ((sumVecs v vs).map (fun s => if 0 ≤ s then 1 else -1)).length := by
        simpa using hs
      rw [List.getD_eq_getElem _ _ hm, List.getElem_map,
        ← List.getD_eq_getElem _ _ hs, sumVecs_getD vs v i hlen hi]
      have : colSum (v :: vs) i = v.getD i 0 + colSum vs i := by simp [colSum]
      rw [this]
  · intro _
    have hneg : (negVec v).length = v.length := by simp [negVec]
    have hall : ([negVec v].all fun w => decide (w.length = v.length)) = true := by
      simp [hneg]
    simp only [bundle, hall, if_true]
    rw [sumVecs_cons]
    show Except.ok ((sumVecs (List.zipWith (· + ·) v (negVec v)) []).map _) = _
    rw [zip_add_neg]
    simp [sumVecs]

/-- C2 witness: the bundle characterization at v = [1,-1] with one more
vector [1,1], together with the empty-input failure and the canceling
pair [1,-1], [-1,1] bundling to all ones. -/
theorem bundle_correct_witness :
    (∃ out, bundle [[1, -1], [1, 1]] = Except.ok out ∧ out.length = 2 ∧
       ∀ i, i < 2 → out.getD i 0 = if 0 ≤ colSum [[1, -1], [1, 1]] i then 1 else -1)
    ∧ bundle ([] : List Vec) = Except.error HDCError.emptyInput
    ∧ (IsBipolar [1, -1] →
        bundle [[1, -1], negVec [1, -1]] = Except.ok (List.replicate 2 1)) := by
  have h := bundle_correct [1, -1] [[1, 1]] (by decide)
  simpa using h

end HDC

namespace HDC

/-- C7: for every positive dimension, random_hypervector succeeds and
returns a vector of exactly that length whose components are all +1 or
-1. -/
theorem random_hypervector_bipolar (d : ℤ) (g : GenState) (hd : 0 < d) :
    ∃ v g2, random_hypervector d g = Except.ok (v, g2) ∧
      (v.length : ℤ) = d ∧ IsBipolar v := by
  refine ⟨(List.range d.toNat).map (fun i => prngDraw g.npSeed (g.npPos + i)),
    ⟨g.pySeed, g.npSeed, g.npPos + d.toNat⟩, ?_, ?_, ?_⟩
  · unfold random_hypervector
    rw [if_neg (by omega)]
  · simp [Int.toNat_of_nonneg hd.le]
  · intro x hx
    simp only [List.mem_map] at hx
    obtain ⟨i, -, rfl⟩ := hx
    unfold prngDraw
    split
    · left; rfl
    · right; rfl

/-- C7 witness: dimension 3 from a freshly seeded generator. -/
theorem random_hypervector_bipolar_witness :
    ∃ v g2, random_hypervector 3 ⟨0, 5, 0⟩ = Except.ok (v, g2) ∧
      (v.length : ℤ) = 3 ∧ IsBipolar v :=
  random_hypervector_bipolar 3 ⟨0, 5, 0⟩ (by decide)

/-- C9: generation is deterministic given the seed.  Outputs of a call
sequence depend only on the NumPy generator state, and two runs that both
begin with set_seed S (whatever states their generators held before) and
then issue the identical call sequence produce identical vectors at every
call. -/
theorem generation_deterministic (S : ℕ) (g1 g2 : GenState) (ds : List ℤ)
    (hnp : g1.npSeed = g2.npSeed) (hpos : g1.npPos = g2.npPos) :
    runCalls g1 ds = runCalls g2 ds ∧
    runCalls (set_seed S g1) ds = runCalls (set_seed S g2) ds := by
  constructor
  · induction ds generalizing g1 g2 with
    | nil => rfl
    | cons d ds ih =>
      by_cases hd : d < 0
      · have e1 : random_hypervector d g1 = .error .invalidArgument := by
          unfold random_hypervector; rw [if_pos hd]
        have e2 : random_hypervector d g2 = .error .invalidArgument := by
          unfold random_hypervector; rw [if_pos hd]
        unfold runCalls
        rw [e1, e2]
        exact congrArg _ (ih g1 g2 hnp hpos)
      · have e1 : random_hypervector d g1 = .ok
            ((List.range d.toNat).map (fun i => prngDraw g1.npSeed (g1.npPos + i)),
             ⟨g1.pySeed, g1.npSeed, g1.npPos + d.toNat⟩) := by
          unfold random_hypervector; rw [if_neg hd]
        have e2 : random_hypervector d g2 = .ok
            ((List.range d.toNat).map (fun i => prngDraw g2.npSeed (g2.npPos + i)),
             ⟨g2.pySeed, g2.npSeed, g2.npPos + d.toNat⟩) := by
          unfold random_hypervector; rw [if_neg hd]
        unfold runCalls
        rw [e1, e2]
        simp only [hnp, hpos]
        exact congrArg _ (ih ⟨g1.pySeed, g2.npSeed, g2.npPos + d.toNat⟩
          ⟨g2.pySeed, g2.npSeed, g2.npPos + d.toNat⟩ rfl rfl)
  · rfl

/-- C9 witness: two generators with different Python-side states but the
same NumPy state, and a fresh seed, on the call sequence [2, 1]. -/
theorem generation_deterministic_witness :
    runCalls ⟨5, 7, 2⟩ [2, 1] = runCalls ⟨9, 7, 2⟩ [2, 1] ∧
    runCalls (set_seed 3 ⟨5, 7, 2⟩) [2, 1] = runCalls (set_seed 3 ⟨9, 7, 2⟩) [2, 1] :=
  generation_deterministic 3 ⟨5, 7, 2⟩ ⟨9, 7, 2⟩ [2, 1] rfl rfl

lemma cosine_nil : cosine_similarity [] [] = Except.ok 0 := by
  have hv : cosVal [] [] = 0 := by
    unfold cosVal dotZ dotExact normv toInt8
    norm_num
  unfold cosine_similarity
  rw [if_pos rfl, hv]

/-- C5 counterexample: dimension 0 is not a positive integer, yet
random_hypervector returns the empty vector instead of failing, and
cosine_similarity on two length-0 vectors returns a value (Python NaN,
modelled as 0) instead of failing with InvalidArgument. -/
theorem invalid_argument_counterexample :
    random_hypervector 0 ⟨0, 0, 0⟩ = Except.ok ([], ⟨0, 0, 0⟩) ∧
    cosine_similarity [] [] = Except.ok 0 :=
  ⟨rfl, cosine_nil⟩

/-- C5 amended: random_hypervector fails with InvalidArgument exactly for
negative dimensions, returning the empty vector without failing at
dimension 0, and cosine_similarity on zero-length inputs returns without
failing (Python produces NaN there, not an error). -/
theorem invalid_argument_amended (d : ℤ) (g : GenState) (hd : d < 0) :
    random_hypervector d g = Except.error HDCError.invalidArgument ∧
    (∀ g2 : GenState, random_hypervector 0 g2 = Except.ok ([], g2)) ∧
    cosine_similarity [] [] = Except.ok 0 := by
  refine ⟨?_, ?_, cosine_nil⟩
  · unfold random_hypervector
    rw [if_pos hd]
  · intro g2
    rfl

/-- C5 amended witness: the negative dimension -1. -/
theorem invalid_argument_amended_witness :
    random_hypervector (-1) ⟨0, 0, 0⟩ = Except.error HDCError.invalidArgument ∧
    (∀ g2 : GenState, random_hypervector 0 g2 = Except.ok ([], g2)) ∧
    cosine_similarity [] [] = Except.ok 0 :=
  invalid_argument_amended (-1) ⟨0, 0, 0⟩ (by decide)

end HDC

namespace HDC

/-- C4 counterexample: [1] and [1, 1] have differing lengths, yet bind
broadcasts the length-1 operand and succeeds instead of failing with
DimensionMismatch. -/
theorem dimension_mismatch_counterexample :
    HDC.bind [1] [1, 1] = Except.ok [1, 1] ∧
    HDC.bind [1] [1, 1] ≠ Except.error HDCError.dimensionMismatch := by
  refine ⟨rfl, ?_⟩
  intro h
  exact Except.noConfusion (rfl.symm.trans h)

/-- C4 amended: bind fails with DimensionMismatch on differing lengths
except when an operand has length 1 (NumPy broadcasting accepts that
case); cosine_similarity fails with DimensionMismatch on every pair of
differing lengths; bundle fails with DimensionMismatch whenever the
collection contains two vectors of differing lengths. -/
theorem dimension_mismatch_amended (a b : Vec) (vs : List Vec) (u w : Vec)
    (hab : a.length ≠ b.length)
    (hu : u ∈ vs) (hw : w ∈ vs) (huw : u.length ≠ w.length) :
    (a.length ≠ 1 → b.length ≠ 1 →
      HDC.bind a b = Except.error HDCError.dimensionMismatch) ∧
    cosine_similarity a b = Except.error HDCError.dimensionMismatch ∧
    bundle vs = Except.error HDCError.dimensionMismatch := by
  refine ⟨?_, ?_, ?_⟩
  · intro ha1 hb1
    unfold HDC.bind
    rw [if_neg hab, if_neg ha1, if_neg hb1]
  · unfold cosine_similarity
    rw [if_neg hab]
  · cases vs with
    | nil => cases hu
    | cons v rest =>
      have hne : ¬ ∀ x ∈ rest, x.length = v.length := by
        intro hall
        have hu2 : u.length = v.length := by
          rcases List.mem_cons.mp hu with rfl | h2
          · rfl
          · exact hall u h2
        have hw2 : w.length = v.length := by
          rcases List.mem_cons.mp hw with rfl | h2
          · rfl
          · exact hall w h2
        exact huw (hu2.trans hw2.symm)
      have hfalse : (rest.all fun x => decide (x.length = v.length)) = false := by
        rcases Bool.eq_false_or_eq_true (rest.all fun x => decide (x.length = v.length))
          with h2 | h2
        · rw [List.all_eq_true] at h2
          exact absurd (fun x hx => of_decide_eq_true (h2 x hx)) hne
        · exact h2
      simp [bundle, hfalse]

/-- C4 amended witness: bind and cosine_similarity at the pair [1, 1] and
[1, 1, 1], cosine_similarity also at the length-1 pair [1] and [1, 1]
(where bind broadcasts but np.dot still raises), and bundle at the
collection containing [1] and [1, 2]. -/
theorem dimension_mismatch_amended_witness :
    HDC.bind [1, 1] [1, 1, 1] = Except.error HDCError.dimensionMismatch ∧
    cosine_similarity [1, 1] [1, 1, 1] = Except.error HDCError.dimensionMismatch ∧
    cosine_similarity [1] [1, 1] = Except.error HDCError.dimensionMismatch ∧
    bundle [[1], [1, 2]] = Except.error HDCError.dimensionMismatch := by
  have h1 := dimension_mismatch_amended [1, 1] [1, 1, 1] [[1], [1, 2]] [1] [1, 2]
    (by decide) (by simp) (by simp) (by decide)
  have h2 := dimension_mismatch_amended [1] [1, 1] [[1], [1, 2]] [1] [1, 2]
    (by decide) (by simp) (by simp) (by decide)
  exact ⟨h1.1 (by decide) (by decide), h1.2.1, h2.2.1, h1.2.2⟩

end HDC

namespace HDC

lemma dotExact_cons (x y : ℤ) (a b : Vec) :
    dotExact (x :: a) (y :: b) = x * y + dotExact a b := by
  simp [dotExact]

lemma dotExact_self_bipolar (v : Vec) (hb : IsBipolar v) :
    dotExact v v = (v.length : ℤ) := by
  induction v with
  | nil => rfl
  | cons x v ih =>
    have hx : x = 1 ∨ x = -1 := hb x (by simp)
    have ih2 := ih (fun z hz => hb z (by simp [hz]))
    rw [dotExact_cons, ih2]
    rcases hx with rfl | rfl <;> simp [List.length_cons] <;> ring

lemma dotExact_neg_right (v w : Vec) : dotExact v (negVec w) = -dotExact v w := by
  induction v generalizing w with
  | nil => simp [dotExact]
  | cons x v ih =>
    cases w with
    | nil => simp [dotExact, negVec]
    | cons y w =>
      simp only [negVec, List.map_cons] at ih ⊢
      rw [dotExact_cons, dotExact_cons, ih]
      ring

lemma dotExact_neg_neg (v : Vec) : dotExact (negVec v) (negVec v) = dotExact v v := by
  induction v with
  | nil => rfl
  | cons x v ih =>
    simp only [negVec, List.map_cons] at ih ⊢
    rw [dotExact_cons, dotExact_cons, ih]
    ring

lemma bipolar_replicate_one (n : ℕ) : IsBipolar (List.replicate n (1 : ℤ)) := by
  intro x hx
  left
  exact List.eq_of_mem_replicate hx

/-- C8: evaluation of the code at the failing input.  At the default
dimension 10,000 the program stores bipolar vectors as int8 arrays, and
np.dot wraps the exact self-product 10,000 to 16 in int8 while the norms
stay exact (100.0 each), so cosine_similarity(v, v) returns
16/10000 = 0.0016 rather than the claimed 1.0, and
cosine_similarity(v, -v) returns -0.0016 rather than -1.0; only the
norm-equals-sqrt-D part of the claim holds. -/
theorem cosine_self_int8_wrap :
    cosine_similarity (List.replicate DIMENSION (1 : ℤ))
        (List.replicate DIMENSION (1 : ℤ)) = Except.ok ((16 : ℝ) / 10000) ∧
    cosine_similarity (List.replicate DIMENSION (1 : ℤ))
        (negVec (List.replicate DIMENSION (1 : ℤ)))
      = Except.ok ((-16 : ℝ) / 10000) ∧
    normv (List.replicate DIMENSION (1 : ℤ)) = 100 ∧
    (16 : ℝ) / 10000 ≠ 1 ∧ (-16 : ℝ) / 10000 ≠ -1 := by
  have hb := bipolar_replicate_one DIMENSION
  have hdot : dotExact (List.replicate DIMENSION (1 : ℤ))
      (List.replicate DIMENSION (1 : ℤ)) = 10000 := by
    rw [dotExact_self_bipolar _ hb, List.length_replicate]
    norm_num [DIMENSION]
  have hdotZ : dotZ (List.replicate DIMENSION (1 : ℤ))
      (List.replicate DIMENSION (1 : ℤ)) = 16 := by
    unfold dotZ
    rw [hdot]
    decide
  have hdotZneg : dotZ (List.replicate DIMENSION (1 : ℤ))
      (negVec (List.replicate DIMENSION (1 : ℤ))) = -16 := by
    unfold dotZ
    rw [dotExact_neg_right, hdot]
    decide
  have hnorm : normv (List.replicate DIMENSION (1 : ℤ)) = 100 := by
    unfold normv
    rw [hdot]
    have h100 : ((10000 : ℤ) : ℝ) = (100 : ℝ) ^ 2 := by norm_num
    rw [h100, Real.sqrt_sq (by norm_num : (0 : ℝ) ≤ 100)]
  have hnormneg : normv (negVec (List.replicate DIMENSION (1 : ℤ)))
      = normv (List.replicate DIMENSION (1 : ℤ)) := by
    unfold normv
    rw [dotExact_neg_neg]
  have hlen : (negVec (List.replicate DIMENSION (1 : ℤ))).length
      = (List.replicate DIMENSION (1 : ℤ)).length := by
    simp [negVec]
  refine ⟨?_, ?_, hnorm, by norm_num, by norm_num⟩
  · unfold cosine_similarity
    rw [if_pos rfl]
    unfold cosVal
    rw [hdotZ, hnorm]
    norm_num
  · unfold cosine_similarity
    rw [if_pos hlen.symm]
    unfold cosVal
    rw [hdotZneg, hnormneg, hnorm]
    norm_num

end HDC

namespace HDC

lemma scoreLE_trans (a b c : String × ℝ) (hab : scoreLE a b) (hbc : scoreLE b c) :
    scoreLE a c := by
  unfold scoreLE at hab hbc ⊢
  exact decide_eq_true (le_trans (of_decide_eq_true hbc) (of_decide_eq_true hab))

lemma scoreLE_total (a b : String × ℝ) : scoreLE a b || scoreLE b a := by
  unfold scoreLE
  rcases le_total a.2 b.2 with h | h
  · simp [decide_eq_true h]
  · simp [decide_eq_true h]

lemma mapM_scores (q : Vec) : ∀ (items : List (String × Vec)),
    (∀ kv ∈ items, kv.2.length = q.length) →
    items.mapM (fun kv => Except.map (fun s => (kv.1, s)) (cosine_similarity q kv.2))
      = Except.ok (items.map (fun kv => (kv.1, cosVal q kv.2))) := by
  intro items
  induction items with
  | nil => intro _; rfl
  | cons kv items ih =>
    intro h
    have hk : kv.2.length = q.length := h kv (by simp)
    have hcos : cosine_similarity q kv.2 = Except.ok (cosVal q kv.2) := by
      unfold cosine_similarity
      rw [if_pos hk.symm]
    rw [List.mapM_cons, hcos, ih (fun u hu => h u (by simp [hu]))]
    rfl

/-- C3: for a memory and a query vector of matching dimension, query
returns one (key, score) pair per stored entry, the score being the
cosine similarity of the query with the stored vector, and the returned
sequence is sorted by score in descending order. -/
theorem query_ranked (m : HDCDictionary) (q : Vec)
    (hdim : ∀ kv ∈ m.items, kv.2.length = q.length) :
    ∃ l, m.query q = Except.ok l ∧
      l.Perm (m.items.map (fun kv => (kv.1, cosVal q kv.2))) ∧
      l.Pairwise (fun x y => y.2 ≤ x.2) := by
  unfold HDCDictionary.query
  rw [mapM_scores q m.items hdim]
  refine ⟨_, rfl, List.mergeSort_perm _ _, ?_⟩
  have hp := List.sorted_mergeSort scoreLE_trans scoreLE_total
    (m.items.map (fun kv => (kv.1, cosVal q kv.2)))
  exact hp.imp (fun h => of_decide_eq_true h)

/-- C3 witness: a two-entry memory queried with [1, 1]. -/
theorem query_ranked_witness :
    ∃ l, HDCDictionary.query ⟨[("a", [1, 1]), ("b", [1, -1])]⟩ [1, 1] = Except.ok l ∧
      l.Perm ([("a", [1, 1]), ("b", [1, -1])].map
        (fun kv => (kv.1, cosVal [1, 1] kv.2))) ∧
      l.Pairwise (fun x y => y.2 ≤ x.2) :=
  query_ranked ⟨[("a", [1, 1]), ("b", [1, -1])]⟩ [1, 1] (by decide)

end HDC

namespace HDC

lemma lookup_map_update (k : String) (v : Vec) :
    ∀ l : List (String × Vec), l.any (fun kv => kv.1 = k) = true →
    (l.map (fun kv => if kv.1 = k then (k, v) else kv)).lookup k = some v := by
  intro l
  induction l with
  | nil => intro h; simp at h
  | cons kv l ih =>
    intro h
    obtain ⟨k1, v1⟩ := kv
    by_cases hk : k1 = k
    · subst hk
      simp
    · have h2 : l.any (fun kv => kv.1 = k) = true := by
        simp only [List.any_cons, Bool.or_eq_true, decide_eq_true_eq] at h
        tauto
      have hbeq : (k == k1) = false := beq_eq_false_iff_ne.mpr (Ne.symm hk)
      simp only [List.map_cons, if_neg hk]
      rw [List.lookup_cons]
      simp only [hbeq]
      exact ih h2

lemma lookup_append_new (k : String) (v : Vec) :
    ∀ l : List (String × Vec), (∀ kv ∈ l, kv.1 ≠ k) →
    ((l ++ [(k, v)]).lookup k) = some v := by
  intro l
  induction l with
  | nil => intro _; simp
  | cons kv l ih =>
    intro h
    obtain ⟨k1, v1⟩ := kv
    have hk : k1 ≠ k := h (k1, v1) (by simp)
    have hbeq : (k == k1) = false := beq_eq_false_iff_ne.mpr (Ne.symm hk)
    rw [List.cons_append, List.lookup_cons]
    simp only [hbeq]
    exact ih (fun kv hkv => h kv (by simp [hkv]))

lemma lookup_map_update_other (k : String) (v : Vec) (k2 : String) (hne : k2 ≠ k) :
    ∀ l : List (String × Vec),
    (l.map (fun kv => if kv.1 = k then (k, v) else kv)).lookup k2 = l.lookup k2 := by
  intro l
  induction l with
  | nil => rfl
  | cons kv l ih =>
    obtain ⟨k1, v1⟩ := kv
    by_cases hk : k1 = k
    · subst hk
      have hbeq : (k2 == k1) = false := beq_eq_false_iff_ne.mpr hne
      have hhead : (if ((k1 : String), v1).1 = k1 then (k1, v) else (k1, v1)) = (k1, v) :=
        if_pos rfl
      rw [List.map_cons, hhead, List.lookup_cons, List.lookup_cons]
      simp only [hbeq]
      exact ih
    · simp only [List.map_cons, if_neg hk]
      rw [List.lookup_cons, List.lookup_cons]
      cases hbeq : (k2 == k1) with
      | true => rfl
      | false => exact ih

lemma lookup_append_other (k : String) (v : Vec) (k2 : String) (hne : k2 ≠ k) :
    ∀ l : List (String × Vec), ((l ++ [(k, v)]).lookup k2) = l.lookup k2 := by
  intro l
  induction l with
  | nil =>
    have hbeq : (k2 == k) = false := beq_eq_false_iff_ne.mpr hne
    simp [List.lookup_cons, hbeq]
  | cons kv l ih =>
    obtain ⟨k1, v1⟩ := kv
    rw [List.cons_append, List.lookup_cons, List.lookup_cons]
    cases hbeq : (k2 == k1) with
    | true => rfl
    | false => exact ih

/-- C6: the associative memory raises no errors of its own: add always
succeeds, storing the vector under the key (overwriting an existing
entry) while leaving every other key unchanged, and query on an empty
memory returns the empty ranked sequence rather than failing. -/
theorem memory_no_errors :
    (∀ (m : HDCDictionary) (k : String) (v : Vec),
      (m.add k v).items.lookup k = some v ∧
      ∀ k2, k2 ≠ k → (m.add k v).items.lookup k2 = m.items.lookup k2) ∧
    (∀ q : Vec, HDCDictionary.query ⟨[]⟩ q = Except.ok []) := by
  constructor
  · intro m k v
    constructor
    · unfold HDCDictionary.add
      split
      · next h => exact lookup_map_update k v m.items h
      · next h =>
        refine lookup_append_new k v m.items ?_
        intro kv hkv hk
        exact h (List.any_eq_true.mpr ⟨kv, hkv, decide_eq_true hk⟩)
    · intro k2 hne
      unfold HDCDictionary.add
      split
      · exact lookup_map_update_other k v k2 hne m.items
      · exact lookup_append_other k v k2 hne m.items
  · intro q
    unfold HDCDictionary.query
    rw [List.mapM_nil]
    show Except.map _ (Except.ok []) = _
    rw [Except.map]
    rw [List.mergeSort_nil]

/-- C6 witness: adding key b to a one-entry memory and querying the empty
memory with [1]. -/
theorem memory_no_errors_witness :
    ((HDCDictionary.mk [("a", [1])]).add "b" [2]).items.lookup "b" = some [2] ∧
    HDCDictionary.query ⟨[]⟩ [1] = Except.ok [] :=
  ⟨(memory_no_errors.1 ⟨[("a", [1])]⟩ "b" [2]).1, memory_no_errors.2 [1]⟩

end HDC

namespace HDC

lemma map_update_noop (k : String) (v : Vec) :
    ∀ l : List (String × Vec), (∀ kv ∈ l, kv.1 ≠ k) →
    l.map (fun kv => if kv.1 = k then (k, v) else kv) = l := by
  intro l
  induction l with
  | nil => intro _; rfl
  | cons kv l ih =>
    intro h
    rw [List.map_cons, if_neg (h kv (by simp)), ih (fun u hu => h u (by simp [hu]))]

/-- C10: the descending sort in query is stable: two stored entries with
equal similarity scores appear in the output in their insertion order;
and overwriting an existing key with add keeps the entry at its original
position. -/
theorem query_stable (m : HDCDictionary) (q : Vec)
    (hdim : ∀ kv ∈ m.items, kv.2.length = q.length)
    (kv1 kv2 : String × Vec)
    (hsub : List.Sublist [kv1, kv2] m.items)
    (heq : cosVal q kv1.2 = cosVal q kv2.2) :
    (∃ l, m.query q = Except.ok l ∧
       List.Sublist [(kv1.1, cosVal q kv1.2), (kv2.1, cosVal q kv2.2)] l) ∧
    (∀ (pre post : List (String × Vec)) (k : String) (v0 v : Vec),
       m.items = pre ++ (k, v0) :: post →
       (∀ kv ∈ pre, kv.1 ≠ k) → (∀ kv ∈ post, kv.1 ≠ k) →
       (m.add k v).items = pre ++ (k, v) :: post) := by
  constructor
  · unfold HDCDictionary.query
    rw [mapM_scores q m.items hdim]
    refine ⟨_, rfl, ?_⟩
    have hmap : List.Sublist
        [(kv1.1, cosVal q kv1.2), (kv2.1, cosVal q kv2.2)]
        (m.items.map (fun kv => (kv.1, cosVal q kv.2))) := by
      have := hsub.map (fun kv => (kv.1, cosVal q kv.2))
      simpa using this
    have hab : scoreLE (kv1.1, cosVal q kv1.2) (kv2.1, cosVal q kv2.2) = true := by
      unfold scoreLE
      exact decide_eq_true (le_of_eq heq.symm)
    exact List.pair_sublist_mergeSort scoreLE_trans scoreLE_total hab hmap
  · intro pre post k v0 v hitems hpre hpost
    unfold HDCDictionary.add
    have hany : (m.items.any fun kv => kv.1 = k) = true := by
      rw [hitems]
      refine List.any_eq_true.mpr ⟨(k, v0), by simp, by simp⟩
    rw [if_pos hany, hitems, List.map_append, List.map_cons, if_pos rfl,
      map_update_noop k v pre hpre, map_update_noop k v post hpost]

/-- C10 witness: two entries with identical vectors (hence equal scores)
keep their insertion order in the query output, and overwriting the key b
keeps its position between a and c. -/
theorem query_stable_witness :
    (∃ l, HDCDictionary.query ⟨[("a", [1, 1]), ("b", [1, 1])]⟩ [1, 1] = Except.ok l ∧
       List.Sublist [("a", cosVal [1, 1] [1, 1]), ("b", cosVal [1, 1] [1, 1])] l) ∧
    (∀ (pre post : List (String × Vec)) (k : String) (v0 v : Vec),
       [("a", [1, 1]), ("b", [1, 1])] = pre ++ (k, v0) :: post →
       (∀ kv ∈ pre, kv.1 ≠ k) → (∀ kv ∈ post, kv.1 ≠ k) →
       ((HDCDictionary.mk [("a", [1, 1]), ("b", [1, 1])]).add k v).items
         = pre ++ (k, v) :: post) :=
  query_stable ⟨[("a", [1, 1]), ("b", [1, 1])]⟩ [1, 1] (by decide)
    ("a", [1, 1]) ("b", [1, 1]) (by simp) rfl

end HDC
